import Mathlib

/-
Verification development for the fullfathom5 patch-application engine
(src/fullfathom5/bones/_apply_patches.py and the report aggregation in
src/fullfathom5/bones/repl_base.py).

Shallow embedding conventions:
  - File text and individual lines are lists of characters (Line = List Char);
    a file buffer is a list of lines, as produced by str.splitlines.
  - The local filesystem is an explicit FSState (a set of directories plus an
    association list from paths to file contents).  Filesystem failures that
    the Python code can encounter as exceptions (read error, failure of
    mkdir for the backup directory, failure of the backup write, failure of
    the final write) are modelled by boolean oracles in an Env record; the
    Lean functions are total, which models the fact that apply never raises.
  - difflib.SequenceMatcher is modelled without junk handling; autojunk only
    affects sequences with at least 200 elements on the b side, which none of
    the concrete inputs used in this development reach.
  - difflib.ndiff emits every line of both sequences exactly once, tagged
    with a prefix; lines inside matching blocks get the common tag and all
    other lines get a plus or minus tag, so the count of plus/minus lines
    computed by the source function equals
    len(before) + len(after) - 2 * (total size of matching blocks).
  - Similarity ratios are rationals; the Python floats never matter for the
    claims under verification (all evaluated ratios are 1.0 on exact paths).
  - The preview rendering (difflib.unified_diff, field preview_diff) is pure
    derived output that no claim mentions and is not modelled.
-/

namespace FF5

abbrev Line := List Char

/-- Longest common prefix length of two lists; the inner step of the
SequenceMatcher model. -/
def prefixRun [DecidableEq α] : List α → List α → Nat
  | x :: xs, y :: ys => if x = y then prefixRun xs ys + 1 else 0
  | _, _ => 0

/-- Model of difflib SequenceMatcher.find_longest_match on whole lists (no
junk): the triple (i, j, size) of the maximal common contiguous run, with
ties broken by the smallest i and then the smallest j, exactly the documented
behaviour of the Python routine. -/
def bestMatch [DecidableEq α] (a b : List α) : Nat × Nat × Nat :=
  (List.range a.length).foldl (fun best i =>
    (List.range b.length).foldl (fun best j =>
      let k := prefixRun (a.drop i) (b.drop j)
      if best.2.2 < k then (i, j, k) else best) best) (0, 0, 0)

/-- Recursion of SequenceMatcher.get_matching_blocks: total size of matched
elements.  The fuel argument is the sum of both lengths, which strictly
bounds the recursion depth because each recursive level removes at least the
matched run. -/
def matchingTotalGo [DecidableEq α] : Nat → List α → List α → Nat
  | 0, _, _ => 0
  | fuel + 1, a, b =>
    let m := bestMatch a b
    if m.2.2 = 0 then 0
    else
      matchingTotalGo fuel (a.take m.1) (b.take m.2.1) + m.2.2 +
        matchingTotalGo fuel (a.drop (m.1 + m.2.2)) (b.drop (m.2.1 + m.2.2))

/-- Total size of SequenceMatcher matching blocks between two sequences. -/
def matchingTotal [DecidableEq α] (a b : List α) : Nat :=
  matchingTotalGo (a.length + b.length) a b

/-- Model of difflib SequenceMatcher.ratio on character sequences:
2*M/T, and 1 when both sequences are empty. -/
def charRatio (a b : List Char) : ℚ :=
  let total := a.length + b.length
  if total = 0 then 1
  else ((2 * matchingTotal a b : Nat) : ℚ) / ((total : Nat) : ℚ)

/-- Model of the source function count_changed_lines: the number of lines of
difflib.ndiff output that carry a plus or minus tag, which equals
len(before) + len(after) - 2 * (total matched lines). -/
def countChangedLines (before after : List Line) : Nat :=
  before.length + after.length - 2 * matchingTotal before after

/-- Characters stripped by Python str.strip / str.rstrip (ASCII range). -/
def isPyWS (c : Char) : Bool :=
  c = ' ' || c = '\t' || c = '\n' || c = '\r' || c = '\x0b' || c = '\x0c'

def isSpaceTab (c : Char) : Bool := c = ' ' || c = '\t'

/-- Model of re.sub applied with the pattern of one-or-more space-or-tab and
a single-space replacement: the boolean flag records whether we are inside a
run of horizontal whitespace. -/
def collapseWSAux : Bool → List Char → List Char
  | _, [] => []
  | inRun, c :: rest =>
    if isSpaceTab c then
      if inRun then collapseWSAux true rest else ' ' :: collapseWSAux true rest
    else c :: collapseWSAux false rest

def collapseWS (l : List Char) : List Char := collapseWSAux false l

def rstripWS (l : Line) : Line := (l.reverse.dropWhile isPyWS).reverse

def stripWS (l : Line) : Line :=
  ((l.dropWhile isPyWS).reverse.dropWhile isPyWS).reverse

def endsWithLF (l : Line) : Bool := l.getLast? = some '\n'

/-- Model of the norm helper inside apply_single_hunk: collapse runs of
horizontal whitespace after rstrip, and restore a trailing newline when the
original line had one. -/
def normLine (l : Line) : Line :=
  collapseWS (rstripWS l) ++ (if endsWithLF l then ['\n'] else [])

/-- The norm helper maps over the sequence only when ignore_space is set. -/
def normSeq (ignoreSpace : Bool) (seq : List Line) : List Line :=
  if ignoreSpace then seq.map normLine else seq

/-- Model of str.replace of CRLF by LF followed by str.replace of CR by LF. -/
def normNewlines : List Char → List Char
  | [] => []
  | '\r' :: '\n' :: rest => '\n' :: normNewlines rest
  | '\r' :: rest => '\n' :: normNewlines rest
  | c :: rest => c :: normNewlines rest

/-- Model of str.splitlines with keepends=True.  The accumulator holds the
current line reversed.  Boundaries modelled: LF, CRLF, CR (the exotic Python
boundaries such as vertical tab never occur in the inputs of the claims). -/
def splitKeepGo : List Char → List Char → List Line
  | acc, [] => if acc = [] then [] else [acc.reverse]
  | acc, '\r' :: '\n' :: rest => ('\n' :: '\r' :: acc).reverse :: splitKeepGo [] rest
  | acc, '\n' :: rest => ('\n' :: acc).reverse :: splitKeepGo [] rest
  | acc, '\r' :: rest => ('\r' :: acc).reverse :: splitKeepGo [] rest
  | acc, c :: rest => splitKeepGo (c :: acc) rest

def splitlinesKeepEnds (cs : List Char) : List Line := splitKeepGo [] cs

/-- Model of str.splitlines with keepends=False. -/
def splitDropGo : List Char → List Char → List Line
  | acc, [] => if acc = [] then [] else [acc.reverse]
  | acc, '\r' :: '\n' :: rest => acc.reverse :: splitDropGo [] rest
  | acc, '\n' :: rest => acc.reverse :: splitDropGo [] rest
  | acc, '\r' :: rest => acc.reverse :: splitDropGo [] rest
  | acc, c :: rest => splitDropGo (c :: acc) rest

def splitlinesDropEnds (cs : List Char) : List Line := splitDropGo [] cs

/-- Model of joining a list of lines with the empty separator. -/
def joinLines (ls : List Line) : List Char := ls.flatten

/-- Boolean test that a line is nonempty and begins with the given tag
character; models str.startswith on a one-character prefix. -/
def headIs (l : Line) (c : Char) : Bool :=
  match l with
  | x :: _ => x == c
  | [] => false

/-- Model of str.startswith for a multi-character prefix. -/
def startsWithChars : Line → List Char → Bool
  | _, [] => true
  | [], _ :: _ => false
  | c :: cs, d :: ds => c == d && startsWithChars cs ds

-- ---------- Data types (dataclasses of the source) ----------

structure Hunk where
  old_start : Nat
  old_count : Nat
  new_start : Nat
  new_count : Nat
  lines : List Line
deriving DecidableEq

structure FilePatch where
  path : Line
  hunks : List Hunk
deriving DecidableEq

structure HunkReport where
  index : Nat
  applied : Bool
  already_applied : Bool
  exact_match : Bool
  ratio : ℚ
  notes : String
deriving DecidableEq

structure FileReport where
  path : Line
  applied : Bool
  changed_lines : Nat
  hunk_reports : List HunkReport
  notes : String
deriving DecidableEq

structure ApplyOptions where
  dry_run : Bool := true
  repo_root : Line := ".".data
  ratio_cutoff : ℚ := 66 / 100
  ignore_space : Bool := false
  normalize_newlines : Bool := true
  backups_dir : Line := ".bones/backups".data
  generate_preview : Bool := true
deriving DecidableEq

structure HunkOutcome where
  applied : Bool
  already_applied : Bool
  exact_match : Bool
  ratio : ℚ
  notes : String
deriving DecidableEq

-- ---------- Hunk matcher ----------

/-- The context-plus-removal lines of a hunk with the tag stripped. -/
def oldChunk (h : Hunk) : List Line :=
  (h.lines.filter (fun l => headIs l ' ' || headIs l '-')).map (List.drop 1)

/-- The context-plus-addition lines of a hunk with the tag stripped. -/
def newChunk (h : Hunk) : List Line :=
  (h.lines.filter (fun l => headIs l ' ' || headIs l '+')).map (List.drop 1)

/-- Scanning loop of find_subsequence for a nonempty needle: try each start
index in order and return the first slice equal to the needle. -/
def scanSubseq [DecidableEq α] (needle : List α) : List α → Nat → Option (Nat × Nat)
  | [], _ => none
  | x :: t, k =>
    if needle.length > (x :: t).length then none
    else if (x :: t).take needle.length = needle then some (k, k + needle.length)
    else scanSubseq needle t (k + 1)

/-- Model of find_subsequence: the span of the first contiguous occurrence of
the needle, with the empty needle found at position 0. -/
def findSubsequence [DecidableEq α] (haystack needle : List α) : Option (Nat × Nat) :=
  if needle = [] then some (0, 0) else scanSubseq needle haystack 0

/-- Candidate windows of the fuzzy anchor search: all (start, end) spans whose
length lies within slack of the target length, enumerated start-major then
length-major exactly as the nested Python loops do. -/
def fuzzyCandidates (nLinesLen targetLen slack : Nat) : List (Nat × Nat) :=
  (List.range (nLinesLen + 1 - max 1 (targetLen - slack))).flatMap (fun start =>
    let lo := max 1 (targetLen - slack)
    let hi := min (nLinesLen - start) (targetLen + slack)
    (List.range (hi + 1 - lo)).map (fun d => (start, start + (lo + d))))

/-- Model of Python list slicing with a stride: keep every step-th element. -/
def everyNth (l : List (Nat × Nat)) (step : Nat) : List (Nat × Nat) :=
  (l.enum.filter (fun p => p.1 % step == 0)).map (fun p => p.2)

/-- Model of apply_single_hunk.  Strategy of the source, in order: exact
old-chunk match, already-applied check on the new chunk, then the sampled
fuzzy window search scored by the SequenceMatcher ratio.  Returns the outcome
together with the updated line buffer (the source splices in place). -/
def applySingleHunk (lines : List Line) (h : Hunk) (ignoreSpace : Bool) (cutoff : ℚ) :
    HunkOutcome × List Line :=
  let oldc := oldChunk h
  let newc := newChunk h
  let nLines := normSeq ignoreSpace lines
  let nOld := normSeq ignoreSpace oldc
  let nNew := normSeq ignoreSpace newc
  match findSubsequence nLines nOld with
  | some (i, j) =>
    ({applied := true, already_applied := false, exact_match := true, ratio := 1, notes := ""},
      lines.take i ++ newc ++ lines.drop j)
  | none =>
    match findSubsequence nLines nNew with
    | some _ =>
      ({applied := false, already_applied := true, exact_match := true, ratio := 1,
        notes := "already applied"}, lines)
    | none =>
      let targetLen := max 1 nOld.length
      let slack := min 12 (max 3 (targetLen / 3))
      let cands := fuzzyCandidates nLines.length targetLen slack
      let step := max 1 (cands.length / 2000)
      let best := (everyNth cands step).foldl
        (fun (acc : ℚ × Option (Nat × Nat)) r =>
          let window := joinLines ((nLines.drop r.1).take (r.2 - r.1))
          let ref := joinLines nOld
          let rt := charRatio window ref
          if acc.1 < rt then (rt, some r) else acc)
        ((-1 : ℚ), (none : Option (Nat × Nat)))
      match best.2 with
      | some (i, j) =>
        if cutoff ≤ best.1 then
          ({applied := true, already_applied := false, exact_match := false, ratio := best.1,
            notes := "fuzzy match at " ++ toString i ++ ":" ++ toString j},
            lines.take i ++ newc ++ lines.drop j)
        else
          ({applied := false, already_applied := false, exact_match := false,
            ratio := if 0 ≤ best.1 then best.1 else 0, notes := "no suitable anchor"}, lines)
      | none =>
        ({applied := false, already_applied := false, exact_match := false,
          ratio := if 0 ≤ best.1 then best.1 else 0, notes := "no suitable anchor"}, lines)

/-- The per-file loop over hunks: each hunk searches anchors in the buffer as
left by the earlier hunks; the index argument numbers the reports. -/
def processHunksAux (ignoreSpace : Bool) (cutoff : ℚ) :
    List Hunk → List Line → Nat → List Line × List HunkReport
  | [], lines, _ => (lines, [])
  | h :: hs, lines, idx =>
    let r := applySingleHunk lines h ignoreSpace cutoff
    let rest := processHunksAux ignoreSpace cutoff hs r.2 (idx + 1)
    (rest.1,
      {index := idx, applied := r.1.applied, already_applied := r.1.already_applied,
       exact_match := r.1.exact_match, ratio := r.1.ratio, notes := r.1.notes} :: rest.2)

def processHunks (hunks : List Hunk) (ignoreSpace : Bool) (cutoff : ℚ)
    (lines : List Line) : List Line × List HunkReport :=
  processHunksAux ignoreSpace cutoff hunks lines 0

-- ---------- Filesystem model and the per-file applier ----------

/-- The parts of the local filesystem the applier touches: a set of created
directories and the contents of regular files, keyed by path. -/
structure FSState where
  dirs : List Line
  files : List (Line × Line)
deriving DecidableEq

/-- Failure oracles for the filesystem operations that the source code can
see fail as exceptions, plus the timestamp used in backup names.  mkdir of
the backup directory is separate from the backup write because in the source
only the backup write sits inside the inner try of ensure_backup; a failure
of the mkdir call propagates to the caller. -/
structure Env where
  readFails : Bool := false
  backupMkdirFails : Bool := false
  backupWriteFails : Bool := false
  writeFails : Bool := false
  ts : Line := []
deriving DecidableEq

def lookupFile : List (Line × Line) → Line → Option Line
  | [], _ => none
  | (q, c) :: rest, p => if q = p then some c else lookupFile rest p

def setFile : List (Line × Line) → Line → Line → List (Line × Line)
  | [], p, c => [(p, c)]
  | (q, d) :: rest, p, c => if q = p then (p, c) :: rest else (q, d) :: setFile rest p c

/-- Model of mkdir with parents=True and exist_ok=True: record the directory
path (standing for it and its ancestors) if not yet present. -/
def mkdirp (d : Line) (fs : FSState) : FSState :=
  if d ∈ fs.dirs then fs else {fs with dirs := d :: fs.dirs}

/-- Model of joining repo_root with the relative patch path (resolution of
dot segments is not modelled; paths are compared syntactically). -/
def resolvePath (root p : Line) : Line := root ++ '/' :: p

/-- Model of pathlib parent: the characters before the last slash, and the
dot path when there is no slash. -/
def parentDir (p : Line) : Line :=
  match p.reverse.dropWhile (fun c => c != '/') with
  | _ :: rest => rest.reverse
  | [] => ['.']

/-- Model of pathlib name: the characters after the last slash. -/
def fileName (p : Line) : Line := (p.reverse.takeWhile (fun c => c != '/')).reverse

/-- Model of pathlib path joining, dropping a bare dot segment. -/
def joinPath (a b : Line) : Line := if b = ['.'] then a else a ++ '/' :: b

def readErrorNote : String := "Read error"

def writeErrorNote : String := "Write error"

/-- Reading the target file as the applier does: missing file reads as empty,
then optional newline normalization, then splitlines keeping the ends. -/
def readBuffer (fp : FilePatch) (opts : ApplyOptions) (fs : FSState) : List Line :=
  let path := resolvePath opts.repo_root fp.path
  let raw := (lookupFile fs.files path).getD []
  let text := if opts.normalize_newlines then normNewlines raw else raw
  splitlinesKeepEnds text

/-- Model of ensure_backup minus the mkdir failure (which the caller models,
since it escapes the inner try of the source): create the backup directory,
then best-effort write the timestamped backup of the original content. -/
def ensureBackup (backupsDir relpath content : Line) (env : Env) (fs : FSState) : FSState :=
  let root := joinPath backupsDir (parentDir relpath)
  let fs1 := mkdirp root fs
  if env.backupWriteFails then fs1
  else
    let bpath := root ++ '/' :: (fileName relpath ++ ".bak.".data ++ env.ts)
    {fs1 with files := setFile fs1.files bpath content}

/-- The tail of apply_file_patch after the hunks ran: compute the change
flags, and when the buffer changed outside dry-run, run the backup step and
the final write, catching their failures as the single Write-error report of
the source (which returns applied=false and changed_lines=0 while keeping
the hunk reports). -/
def finishFilePatch (fp : FilePatch) (opts : ApplyOptions) (env : Env) (path : Line)
    (fs1 : FSState) (original finalLines : List Line) (hreports : List HunkReport) :
    FileReport × FSState :=
  let changed : Bool := decide (finalLines ≠ original)
  let nchanged := countChangedLines original finalLines
  if changed && !opts.dry_run then
    if env.backupMkdirFails then
      ({path := fp.path, applied := false, changed_lines := 0, hunk_reports := hreports,
        notes := writeErrorNote}, fs1)
    else
      let fs2 := ensureBackup opts.backups_dir fp.path (joinLines original) env fs1
      if env.writeFails then
        ({path := fp.path, applied := false, changed_lines := 0, hunk_reports := hreports,
          notes := writeErrorNote}, fs2)
      else
        ({path := fp.path, applied := changed, changed_lines := nchanged,
          hunk_reports := hreports, notes := ""},
          {fs2 with files := setFile fs2.files path (joinLines finalLines)})
  else
    ({path := fp.path, applied := changed, changed_lines := nchanged,
      hunk_reports := hreports, notes := ""}, fs1)

/-- Model of apply_file_patch: resolve the path, create the parent
directories, read (a read failure reports per file and attempts no hunk),
run the hunks in order on the evolving buffer, then finish with the
change report and optional write. -/
def applyFilePatch (fp : FilePatch) (opts : ApplyOptions) (env : Env) (fs : FSState) :
    FileReport × FSState :=
  let path := resolvePath opts.repo_root fp.path
  let fs1 := mkdirp (parentDir path) fs
  if env.readFails then
    ({path := fp.path, applied := false, changed_lines := 0, hunk_reports := [],
      notes := readErrorNote}, fs1)
  else
    let original := readBuffer fp opts fs1
    let res := processHunks fp.hunks opts.ignore_space opts.ratio_cutoff original
    finishFilePatch fp opts env path fs1 original res.1 res.2

/-- Model of the loop of apply_patches over the parsed file patches:
sequential application, threading the filesystem state. -/
def applyPatchesList (opts : ApplyOptions) (env : Env) :
    List FilePatch → FSState → List FileReport × FSState
  | [], fs => ([], fs)
  | fp :: rest, fs =>
    let r := applyFilePatch fp opts env fs
    let rs := applyPatchesList opts env rest r.2
    (r.1 :: rs.1, rs.2)

-- ---------- Unified diff parser ----------

def dashHdr : List Char := "--- ".data

def plusHdr : List Char := "+++ ".data

def aPre : List Char := "a/".data

def bPre : List Char := "b/".data

def devNull : Line := "/dev/null".data

def noNewlineMarker : Line := "\\ No newline at end of file".data

/-- Strip an expected literal prefix, or fail. -/
def stripPre : Line → List Char → Option Line
  | l, [] => some l
  | [], _ :: _ => none
  | c :: cs, d :: ds => if c = d then stripPre cs ds else none

def digitsVal (ds : Line) : Nat := ds.foldl (fun n c => n * 10 + (c.toNat - 48)) 0

/-- Parse a decimal number followed by an optional comma-separated count,
with the count defaulting as the source does; mirrors the regex fragment for
one side of the hunk header. -/
def parseNumPair (l : Line) (defCnt : Nat) : Option (Nat × Nat × Line) :=
  let ds := l.takeWhile Char.isDigit
  let r1 := l.dropWhile Char.isDigit
  if ds = [] then none
  else
    match r1 with
    | ',' :: r2 =>
      let ds2 := r2.takeWhile Char.isDigit
      let r3 := r2.dropWhile Char.isDigit
      if ds2 = [] then none else some (digitsVal ds, digitsVal ds2, r3)
    | _ => some (digitsVal ds, defCnt, r1)

/-- Model of matching the hunk header regex at the start of a line; anything
may follow the closing at-signs. -/
def matchHunkHeader (l : Line) : Option (Nat × Nat × Nat × Nat) := do
  let r0 ← stripPre l ['@', '@', ' ', '-']
  let p1 ← parseNumPair r0 1
  let r2 ← stripPre p1.2.2 [' ', '+']
  let p2 ← parseNumPair r2 1
  let _ ← stripPre p2.2.2 [' ', '@', '@']
  pure (p1.1, p1.2.1, p2.1, p2.2.1)

/-- Mutable state of the parsing loop: finished patches, the open file patch,
the hunk being collected, and the path of the last plus header (none models
the Python None, in particular after a dev-null target). -/
structure PState where
  patches : List FilePatch
  cur : Option FilePatch
  pending : Option Hunk
  curNewPath : Option Line
deriving DecidableEq

def initPState : PState := ⟨[], none, none, none⟩

/-- Model of the finish_hunk closure: append the pending hunk to the open
file patch when both exist, and clear it. -/
def finishHunk (st : PState) : PState :=
  match st.pending, st.cur with
  | some h, some c =>
    {st with cur := some {c with hunks := c.hunks ++ [h]}, pending := none}
  | _, _ => {st with pending := none}

/-- Model of the start_file closure: flush the open file patch (after
finishing its pending hunk) and open a fresh one. -/
def startFile (p : Line) (st : PState) : PState :=
  match st.cur with
  | some _ =>
    let st1 := finishHunk st
    match st1.cur with
    | some c => {st1 with patches := st1.patches ++ [c], cur := some ⟨p, []⟩}
    | none => {st1 with cur := some ⟨p, []⟩}
  | none => {st with cur := some ⟨p, []⟩}

/-- The inner scan that looks for the paired plus header after a minus
header, skipping any intervening lines. -/
def scanToPlus : List Line → Option (Line × List Line)
  | [] => none
  | l :: rest => if startsWithChars l plusHdr then some (l, rest) else scanToPlus rest

/-- A hunk body ends at the next file header or hunk header. -/
def bodyBreak (l : Line) : Bool :=
  startsWithChars l dashHdr || startsWithChars l plusHdr || (matchHunkHeader l).isSome

/-- How one body line is recorded: tagged lines verbatim, the no-newline
marker dropped, anything else defensively treated as context. -/
def bodyItem (l : Line) : Option Line :=
  if headIs l ' ' || headIs l '+' || headIs l '-' then some l
  else if l = noNewlineMarker then none
  else some (' ' :: l)

/-- Collect hunk body lines until a break line, returning them with the
remaining input. -/
def collectBody : List Line → List Line × List Line
  | [] => ([], [])
  | l :: rest =>
    if bodyBreak l then ([], l :: rest)
    else
      let cb := collectBody rest
      match bodyItem l with
      | some x => (x :: cb.1, cb.2)
      | none => cb

/-- Model of the scanning loop of parse_unified_diff_multifile.  A minus
header looks for its plus header (giving up at end of input, like the break
of the source); a dev-null or empty target leaves no open path; a hunk
header is ignored unless both an open file and a current path exist. -/
def parseLoop : PState → List Line → PState
  | st, [] => st
  | st, line :: rest =>
    if startsWithChars line dashHdr then
      match hscan : scanToPlus rest with
      | none => st
      | some (plus, rest') =>
        let np0 := stripWS (plus.drop 4)
        let np1 := if startsWithChars np0 aPre || startsWithChars np0 bPre
                   then np0.drop 2 else np0
        let npOpt : Option Line := if np1 = devNull then none else some np1
        let st1 : PState := {st with curNewPath := npOpt}
        let st2 : PState :=
          match npOpt with
          | some p => if p.isEmpty then st1 else startFile p st1
          | none => st1
        parseLoop st2 rest'
    else
      match matchHunkHeader line with
      | some hd =>
        if st.cur.isNone || st.curNewPath.isNone then parseLoop st rest
        else
          let st1 := finishHunk st
          let cb := collectBody rest
          parseLoop {st1 with pending := some ⟨hd.1, hd.2.1, hd.2.2.1, hd.2.2.2, cb.1⟩} cb.2
      | none => parseLoop st rest
termination_by _ ls => ls.length
decreasing_by
  · have hlen : ∀ (ls : List Line) (p : Line) (r : List Line),
        scanToPlus ls = some (p, r) → r.length < ls.length := by
      intro ls
      induction ls with
      | nil => intro p r hsc; simp [scanToPlus] at hsc
      | cons a t ih =>
        intro p r hsc
        by_cases hc : startsWithChars a plusHdr
        · simp [scanToPlus, hc] at hsc
          simp [hsc.2]
        · simp [scanToPlus, hc] at hsc
          have := ih _ _ hsc
          simp
          omega
    have := hlen _ _ _ hscan
    simp
    omega
  · have hcb : ∀ (ls : List Line), (collectBody ls).2.length ≤ ls.length := by
      intro ls
      induction ls with
      | nil => simp [collectBody]
      | cons a t ih =>
        by_cases hb : bodyBreak a
        · simp [collectBody, hb]
        · simp only [collectBody, hb, if_false, Bool.false_eq_true]
          cases bodyItem a <;> simp <;> omega
    have := hcb rest
    simp
    omega
  · simp

/-- Finalization of the parser: finish the last pending hunk and flush the
open file patch. -/
def finalizeP (st : PState) : List FilePatch :=
  let st1 := finishHunk st
  match st1.cur with
  | some c => st1.patches ++ [c]
  | none => st1.patches

def parseLinesFrom (st : PState) (ls : List Line) : List FilePatch :=
  finalizeP (parseLoop st ls)

/-- Model of parse_unified_diff_multifile on a whole text. -/
def parseUnifiedDiffMultifile (text : List Char) : List FilePatch :=
  parseLinesFrom initPState (splitlinesDropEnds text)

-- ---------- Report builder (summ_counts of repl_base) ----------

/-- One step of the counting loop of summ_counts. -/
def summStep (acc : Nat × Nat × Nat) (fr : FileReport) : Nat × Nat × Nat :=
  let exactApplied := fr.hunk_reports.any (fun hr => hr.applied && hr.exact_match)
  let fuzzyApplied := fr.hunk_reports.any (fun hr => hr.applied && !hr.exact_match)
  let noneApplied := !(fr.hunk_reports.any (fun hr => hr.applied))
  let alreadyAll := if fr.hunk_reports = [] then false
                    else fr.hunk_reports.all (fun hr => hr.already_applied)
  if exactApplied then (acc.1 + 1, acc.2.1, acc.2.2)
  else if fuzzyApplied then (acc.1, acc.2.1 + 1, acc.2.2)
  else if noneApplied && !alreadyAll then (acc.1, acc.2.1, acc.2.2 + 1)
  else acc

/-- Model of summ_counts: the ok, fuzzy and rejected file counts. -/
def summCounts (frs : List FileReport) : Nat × Nat × Nat :=
  frs.foldl summStep (0, 0, 0)

/-- Modelled from the spec wording: a file counted as exact, namely some hunk
applied with an exact match. -/
def claimExact (fr : FileReport) : Prop :=
  ∃ hr ∈ fr.hunk_reports, hr.applied = true ∧ hr.exact_match = true

/-- Modelled from the spec wording: a file counted as fuzzy, namely not exact
and some hunk applied without an exact match. -/
def claimFuzzy (fr : FileReport) : Prop :=
  ¬ claimExact fr ∧ ∃ hr ∈ fr.hunk_reports, hr.applied = true ∧ hr.exact_match = false

/-- Modelled from the spec wording (amended): the no-op case, a file with at
least one hunk report, all of them already applied. -/
def claimAlreadyNoOp (fr : FileReport) : Prop :=
  fr.hunk_reports ≠ [] ∧ ∀ hr ∈ fr.hunk_reports, hr.already_applied = true

/-- Modelled from the spec wording (amended): a file counted as rejected,
namely in no earlier bucket, with no hunk applied, and not an already-applied
no-op in the amended sense. -/
def claimRejected (fr : FileReport) : Prop :=
  ¬ claimExact fr ∧ ¬ claimFuzzy fr ∧ (∀ hr ∈ fr.hunk_reports, hr.applied = false) ∧
    ¬ claimAlreadyNoOp fr

instance (fr : FileReport) : Decidable (claimExact fr) := by
  unfold claimExact; exact inferInstance

instance (fr : FileReport) : Decidable (claimFuzzy fr) := by
  unfold claimFuzzy; exact inferInstance

instance (fr : FileReport) : Decidable (claimAlreadyNoOp fr) := by
  unfold claimAlreadyNoOp; exact inferInstance

instance (fr : FileReport) : Decidable (claimRejected fr) := by
  unfold claimRejected; exact inferInstance

-- ---------- Concrete sample inputs used by counterexamples and witnesses ----------

/-- A one-hunk patch replacing the line a by the line b in file f. -/
def sampleFp : FilePatch := ⟨"f".data, [⟨1, 1, 1, 1, ["-a".data, "+b".data]⟩]⟩

/-- Options with real writes enabled and every other field at its default. -/
def sampleOpts : ApplyOptions := {dry_run := false}

/-- A filesystem whose file f contains the single line a (no newline). -/
def sampleFs : FSState := ⟨[], [("./f".data, "a".data)]⟩

/-- A patch whose only hunk consists of a single added line. -/
def addFp : FilePatch := ⟨"f".data, [⟨1, 0, 1, 1, ["+x".data]⟩]⟩

def emptyFs : FSState := ⟨[], []⟩

/-- The end-to-end example of the spec: replace line2 by line2-changed. -/
def c2fp : FilePatch :=
  ⟨"f".data, [⟨2, 1, 2, 1, ["-line2\n".data, "+line2-changed\n".data]⟩]⟩

def c2fs : FSState := ⟨[], [("./f".data, "line1\nline2\nline3\n".data)]⟩

/-- A file report with no hunk reports, as the read-error path produces. -/
def emptyReportFr : FileReport := ⟨"f".data, false, 0, [], ""⟩

abbrev sliceAt (haystack needle : List α) (i : Nat) : Prop :=
  (haystack.drop i).take needle.length = needle

/-- Witness inputs for the exact-precedence claim: both chunks occur. -/
def w8lines : List Line := ["c".data, "a".data]

def w8hunk : Hunk := ⟨1, 1, 1, 1, ["-a".data, "+c".data]⟩

/-- Witness inputs for the pure-addition claim. -/
def w9lines : List Line := ["x\n".data]

def w9hunk : Hunk := ⟨0, 0, 1, 1, ["+x\n".data]⟩

-- ---------- Helper lemmas ----------

theorem mkdirp_files (d : Line) (fs : FSState) : (mkdirp d fs).files = fs.files := by
  unfold mkdirp
  split <;> rfl

theorem mem_mkdirp_self (d : Line) (fs : FSState) : d ∈ (mkdirp d fs).dirs := by
  unfold mkdirp
  split
  · assumption
  · exact List.mem_cons_self _ _

theorem mem_mkdirp_of_mem {a : Line} (d : Line) (fs : FSState) (h : a ∈ fs.dirs) :
    a ∈ (mkdirp d fs).dirs := by
  unfold mkdirp
  split
  · exact h
  · exact List.mem_cons_of_mem _ h

theorem mem_ensureBackup_of_mem {a : Line} (bd rp ct : Line) (env : Env) (fs : FSState)
    (h : a ∈ fs.dirs) : a ∈ (ensureBackup bd rp ct env fs).dirs := by
  unfold ensureBackup
  split
  · exact mem_mkdirp_of_mem _ _ h
  · exact mem_mkdirp_of_mem _ _ h

theorem readBuffer_mkdirp (fp : FilePatch) (opts : ApplyOptions) (d : Line) (fs : FSState) :
    readBuffer fp opts (mkdirp d fs) = readBuffer fp opts fs := by
  unfold readBuffer
  rw [mkdirp_files]

theorem scanSubseq_isSome [DecidableEq α] (needle : List α) (hne : needle ≠ []) :
    ∀ (hs : List α) (k i : Nat), sliceAt hs needle i → (scanSubseq needle hs k).isSome = true := by
  intro hs
  induction hs with
  | nil =>
    intro k i hsl
    exfalso
    apply hne
    have : (List.drop i ([] : List α)) = [] := by simp
    rw [sliceAt, this] at hsl
    simpa using hsl.symm
  | cons x t ih =>
    intro k i hsl
    unfold scanSubseq
    by_cases hlen : needle.length > (x :: t).length
    · exfalso
      have h1 : ((x :: t).drop i).take needle.length = needle := hsl
      have h2 : (((x :: t).drop i).take needle.length).length = needle.length := by rw [h1]
      simp only [List.length_take, List.length_drop, List.length_cons] at h2
      rw [min_eq_left_iff] at h2
      simp only [List.length_cons] at hlen
      omega
    · rw [if_neg hlen]
      by_cases heq : (x :: t).take needle.length = needle
      · rw [if_pos heq]
        rfl
      · rw [if_neg heq]
        cases i with
        | zero =>
          exfalso
          apply heq
          simpa [sliceAt] using hsl
        | succ i' =>
          have : sliceAt t needle i' := by
            have : (x :: t).drop (i' + 1) = t.drop i' := by simp
            simpa [sliceAt, this] using hsl
          exact ih (k + 1) i' this

theorem findSubsequence_isSome [DecidableEq α] (hs needle : List α)
    (h : ∃ i, sliceAt hs needle i) : (findSubsequence hs needle).isSome = true := by
  unfold findSubsequence
  by_cases hne : needle = []
  · simp [hne]
  · obtain ⟨i, hi⟩ := h
    rw [if_neg hne]
    exact scanSubseq_isSome needle hne hs 0 i hi

theorem applySingleHunk_already (B : List Line) (h : Hunk) (ig : Bool) (cut : ℚ)
    (h1 : findSubsequence (normSeq ig B) (normSeq ig (oldChunk h)) = none)
    (h2 : (findSubsequence (normSeq ig B) (normSeq ig (newChunk h))).isSome = true) :
    applySingleHunk B h ig cut =
      ({applied := false, already_applied := true, exact_match := true, ratio := 1,
        notes := "already applied"}, B) := by
  obtain ⟨p, hp⟩ := Option.isSome_iff_exists.mp h2
  simp only [applySingleHunk, h1, hp]

theorem processHunksAux_already (ig : Bool) (cut : ℚ) :
    ∀ (hs : List Hunk) (B : List Line) (k : Nat),
      (∀ h ∈ hs, findSubsequence (normSeq ig B) (normSeq ig (oldChunk h)) = none ∧
        (findSubsequence (normSeq ig B) (normSeq ig (newChunk h))).isSome = true) →
      (processHunksAux ig cut hs B k).1 = B ∧
        ∀ r ∈ (processHunksAux ig cut hs B k).2,
          r.already_applied = true ∧ r.applied = false := by
  intro hs
  induction hs with
  | nil =>
    intro B k _
    refine ⟨rfl, ?_⟩
    intro r hr
    simp [processHunksAux] at hr
  | cons h t ih =>
    intro B k H
    have hh := H h (List.mem_cons_self _ _)
    have hone := applySingleHunk_already B h ig cut hh.1 hh.2
    have ht : ∀ h' ∈ t, findSubsequence (normSeq ig B) (normSeq ig (oldChunk h')) = none ∧
        (findSubsequence (normSeq ig B) (normSeq ig (newChunk h'))).isSome = true := by
      intro h' hm
      exact H h' (List.mem_cons_of_mem _ hm)
    have hrec := ih B (k + 1) ht
    constructor
    · show (processHunksAux ig cut (h :: t) B k).1 = B
      unfold processHunksAux
      rw [hone]
      exact hrec.1
    · intro r hr
      unfold processHunksAux at hr
      rw [hone] at hr
      simp only [List.mem_cons] at hr
      rcases hr with hr | hr
      · rw [hr]
        exact ⟨rfl, rfl⟩
      · exact hrec.2 r hr

theorem applyFilePatch_already (fp : FilePatch) (opts : ApplyOptions) (env : Env) (fs : FSState)
    (hrd : env.readFails = false)
    (H : ∀ h ∈ fp.hunks,
      findSubsequence (normSeq opts.ignore_space (readBuffer fp opts fs))
        (normSeq opts.ignore_space (oldChunk h)) = none ∧
      (findSubsequence (normSeq opts.ignore_space (readBuffer fp opts fs))
        (normSeq opts.ignore_space (newChunk h))).isSome = true) :
    (∀ r ∈ (applyFilePatch fp opts env fs).1.hunk_reports, r.already_applied = true) ∧
      (applyFilePatch fp opts env fs).1.applied = false := by
  obtain ⟨hfix, hrep⟩ :=
    processHunksAux_already opts.ignore_space opts.ratio_cutoff fp.hunks
      (readBuffer fp opts fs) 0 H
  unfold applyFilePatch
  rw [hrd]
  simp only [Bool.false_eq_true, if_false]
  rw [readBuffer_mkdirp]
  unfold processHunks
  unfold finishFilePatch
  rw [hfix]
  simp only [ne_eq, not_true_eq_false, decide_False, Bool.false_and, Bool.false_eq_true,
    if_false]
  exact ⟨fun r hr => (hrep r hr).1, trivial⟩

theorem summStep_eq (acc : Nat × Nat × Nat) (fr : FileReport) :
    summStep acc fr =
      (acc.1 + (if claimExact fr then 1 else 0),
       acc.2.1 + (if claimFuzzy fr then 1 else 0),
       acc.2.2 + (if claimRejected fr then 1 else 0)) := by
  have hEiff : (fr.hunk_reports.any (fun hr => hr.applied && hr.exact_match) = true) ↔
      claimExact fr := by
    rw [List.any_eq_true]
    unfold claimExact
    simp [Bool.and_eq_true]
  have hFiff : (fr.hunk_reports.any (fun hr => hr.applied && !hr.exact_match) = true) ↔
      (∃ hr ∈ fr.hunk_reports, hr.applied = true ∧ hr.exact_match = false) := by
    rw [List.any_eq_true]
    simp [Bool.and_eq_true, Bool.not_eq_true']
  have hNiff : ((!(fr.hunk_reports.any (fun hr => hr.applied))) = true) ↔
      (∀ hr ∈ fr.hunk_reports, hr.applied = false) := by
    rw [Bool.not_eq_true']
    rw [← Bool.not_eq_true]
    rw [List.any_eq_true]
    simp
  have hAiff : ((if fr.hunk_reports = [] then false
      else fr.hunk_reports.all (fun hr => hr.already_applied)) = true) ↔
      claimAlreadyNoOp fr := by
    unfold claimAlreadyNoOp
    split
    · simp [*]
    · rw [List.all_eq_true]
      simp [*]
  simp only [summStep]
  by_cases h1 : (fr.hunk_reports.any fun hr => hr.applied && hr.exact_match) = true
  · have hE := hEiff.mp h1
    have hFn : ¬ claimFuzzy fr := fun h => h.1 hE
    have hRn : ¬ claimRejected fr := fun h => h.1 hE
    simp [h1, hE, hFn, hRn]
  · have hEn : ¬ claimExact fr := fun hE => h1 (hEiff.mpr hE)
    by_cases h2 : (fr.hunk_reports.any fun hr => hr.applied && !hr.exact_match) = true
    · have hF : claimFuzzy fr := ⟨hEn, hFiff.mp h2⟩
      have hRn : ¬ claimRejected fr := fun h => h.2.1 hF
      simp [h1, h2, hEn, hF, hRn]
    · have hFn : ¬ claimFuzzy fr := fun h => h2 (hFiff.mpr h.2)
      by_cases h3 : ((!(fr.hunk_reports.any fun hr => hr.applied)) &&
          !(if fr.hunk_reports = [] then false
            else fr.hunk_reports.all fun hr => hr.already_applied)) = true
      · have h3' := h3
        rw [Bool.and_eq_true] at h3'
        obtain ⟨ha, hb⟩ := h3'
        have hAn : ¬ claimAlreadyNoOp fr := by
          intro hA
          rw [Bool.not_eq_true'] at hb
          rw [← hAiff] at hA
          rw [hb] at hA
          exact Bool.false_ne_true hA
        have hR : claimRejected fr := ⟨hEn, hFn, hNiff.mp ha, hAn⟩
        rw [if_neg h1, if_neg h2, if_pos h3, if_neg hEn, if_neg hFn, if_pos hR]
        simp
      · have hRn : ¬ claimRejected fr := by
          intro hR
          apply h3
          rw [Bool.and_eq_true]
          refine ⟨hNiff.mpr hR.2.2.1, ?_⟩
          rw [Bool.not_eq_true']
          cases hcc : (if fr.hunk_reports = [] then false
              else fr.hunk_reports.all fun hr => hr.already_applied) with
          | false => rfl
          | true => exact absurd (hAiff.mp hcc) hR.2.2.2
        rw [if_neg h1, if_neg h2, if_neg h3, if_neg hEn, if_neg hFn, if_neg hRn]
        simp

theorem summCounts_eq_aux (frs : List FileReport) :
    ∀ acc : Nat × Nat × Nat,
      frs.foldl summStep acc =
        (acc.1 + frs.countP (fun fr => decide (claimExact fr)),
         acc.2.1 + frs.countP (fun fr => decide (claimFuzzy fr)),
         acc.2.2 + frs.countP (fun fr => decide (claimRejected fr))) := by
  induction frs with
  | nil => intro acc; simp
  | cons fr rest ih =>
    intro acc
    rw [List.foldl_cons, ih, summStep_eq]
    simp only [List.countP_cons, decide_eq_true_eq]
    refine Prod.ext ?_ (Prod.ext ?_ ?_) <;> simp <;> split_ifs <;> omega

theorem applyFilePatch_dry_files (fp : FilePatch) (opts : ApplyOptions) (env : Env)
    (fs : FSState) (h : opts.dry_run = true) :
    ((applyFilePatch fp opts env fs).2).files = fs.files := by
  unfold applyFilePatch
  cases hr : env.readFails
  · simp only [Bool.false_eq_true, if_false]
    unfold finishFilePatch
    rw [h]
    simp only [Bool.not_true, Bool.and_false, Bool.false_eq_true, if_false]
    exact mkdirp_files _ _
  · simp only [if_true]
    exact mkdirp_files _ _

theorem normSeq_false (l : List Line) : normSeq false l = l := rfl

theorem normSeq_nil (ig : Bool) : normSeq ig [] = [] := by
  unfold normSeq
  split <;> rfl

theorem scanToPlus_append (gap : List Line) (plus : Line) (rest : List Line)
    (hg : ∀ l ∈ gap, startsWithChars l plusHdr = false)
    (hp : startsWithChars plus plusHdr = true) :
    scanToPlus (gap ++ plus :: rest) = some (plus, rest) := by
  induction gap with
  | nil => simp [scanToPlus, hp]
  | cons a t ih =>
    have ha := hg a (List.mem_cons_self _ _)
    simp only [List.cons_append, scanToPlus, ha, Bool.false_eq_true, if_false]
    exact ih (fun l hl => hg l (List.mem_cons_of_mem _ hl))

theorem parseLoop_skip (st : PState) (hcnp : st.curNewPath = none) :
    ∀ (body post : List Line), (∀ l ∈ body, startsWithChars l dashHdr = false) →
      parseLoop st (body ++ post) = parseLoop st post := by
  intro body
  induction body with
  | nil => intro post _; rfl
  | cons a t ih =>
    intro post hb
    have ha := hb a (List.mem_cons_self _ _)
    rw [List.cons_append]
    rw [parseLoop]
    simp only [ha, Bool.false_eq_true, if_false]
    cases hm : matchHunkHeader a with
    | none =>
      simp only [hm]
      exact ih post (fun l hl => hb l (List.mem_cons_of_mem _ hl))
    | some hd =>
      simp only [hm, hcnp, Option.isNone_none, Bool.or_true, if_true]
      exact ih post (fun l hl => hb l (List.mem_cons_of_mem _ hl))

theorem finalizeP_set_cnp (st : PState) (x : Option Line) :
    finalizeP {st with curNewPath := x} = finalizeP st := by
  obtain ⟨ps, cur, pend, cnp⟩ := st
  unfold finalizeP finishHunk
  cases pend <;> cases cur <;> rfl

theorem parseLinesFrom_set_cnp (st : PState) (x : Option Line) (post : List Line)
    (hpost : post = [] ∨ ∃ p ps, post = p :: ps ∧ startsWithChars p dashHdr = true) :
    parseLinesFrom {st with curNewPath := x} post = parseLinesFrom st post := by
  rcases hpost with h | ⟨p, ps, hpp, hp⟩
  · subst h
    unfold parseLinesFrom
    rw [parseLoop, parseLoop]
    exact finalizeP_set_cnp st x
  · subst hpp
    obtain ⟨ps0, cur0, pend0, cnp0⟩ := st
    unfold parseLinesFrom
    rw [parseLoop, parseLoop]
    simp only [hp, if_true]
    cases hs : scanToPlus ps with
    | none =>
      simp only [hs]
      exact finalizeP_set_cnp ⟨ps0, cur0, pend0, cnp0⟩ x
    | some pr => simp only [hs]

-- ---------- Claim theorems ----------

/-- Claim C1, counterexample: the original claim quantifies over every
FilePatch and file state, but a patch whose only hunk is a pure addition
applies again on the second run (the empty old chunk is found at position 0),
so the second run reports the hunk with already_applied=false and the file
with applied=true. -/
theorem C1_twice_counterexample :
    (applyFilePatch addFp sampleOpts {} ((applyFilePatch addFp sampleOpts {} emptyFs).2)).1.applied
        = true ∧
    List.map HunkReport.already_applied
      (applyFilePatch addFp sampleOpts {}
        ((applyFilePatch addFp sampleOpts {} emptyFs).2)).1.hunk_reports = [false] := by
  decide

/-- Claim C1 (amended): applying a FilePatch twice with dry_run=false yields
already_applied=true for every hunk and applied=false for the file on the
second run, provided that in the buffer left by the first run no hunk's
old chunk occurs as a contiguous run while every hunk's new chunk does. -/
theorem C1_twice_already_amended (fp : FilePatch) (opts : ApplyOptions) (env : Env)
    (fs : FSState) (hdry : opts.dry_run = false) (hrd : env.readFails = false)
    (H : ∀ h ∈ fp.hunks,
      findSubsequence
        (normSeq opts.ignore_space (readBuffer fp opts (applyFilePatch fp opts env fs).2))
        (normSeq opts.ignore_space (oldChunk h)) = none ∧
      (findSubsequence
        (normSeq opts.ignore_space (readBuffer fp opts (applyFilePatch fp opts env fs).2))
        (normSeq opts.ignore_space (newChunk h))).isSome = true) :
    (∀ r ∈ (applyFilePatch fp opts env (applyFilePatch fp opts env fs).2).1.hunk_reports,
        r.already_applied = true) ∧
    (applyFilePatch fp opts env (applyFilePatch fp opts env fs).2).1.applied = false :=
  applyFilePatch_already fp opts env (applyFilePatch fp opts env fs).2 hrd H

/-- Witness for C1 (amended) at the sample patch replacing a by b: the first
run rewrites the file, after which the old chunk is gone and the new chunk is
present, so the second run is a clean no-op. -/
theorem C1_twice_already_amended_witness :
    sampleOpts.dry_run = false ∧ ({} : Env).readFails = false ∧
    (∀ h ∈ sampleFp.hunks,
      findSubsequence
        (normSeq sampleOpts.ignore_space
          (readBuffer sampleFp sampleOpts (applyFilePatch sampleFp sampleOpts {} sampleFs).2))
        (normSeq sampleOpts.ignore_space (oldChunk h)) = none ∧
      (findSubsequence
        (normSeq sampleOpts.ignore_space
          (readBuffer sampleFp sampleOpts (applyFilePatch sampleFp sampleOpts {} sampleFs).2))
        (normSeq sampleOpts.ignore_space (newChunk h))).isSome = true) ∧
    ((∀ r ∈ (applyFilePatch sampleFp sampleOpts {}
        ((applyFilePatch sampleFp sampleOpts {} sampleFs).2)).1.hunk_reports,
        r.already_applied = true) ∧
      (applyFilePatch sampleFp sampleOpts {}
        ((applyFilePatch sampleFp sampleOpts {} sampleFs).2)).1.applied = false) :=
  ⟨rfl, rfl, by decide,
    C1_twice_already_amended sampleFp sampleOpts {} sampleFs rfl rfl (by decide)⟩

/-- Claim C2, counterexample: on the end-to-end example the changed-line
count is 2, not 1, because the ndiff-based counter counts both the removed
line and the added line of the replacement. -/
theorem C2_example_counterexample :
    (applyFilePatch c2fp {} {} c2fs).1.changed_lines = 2 := by
  decide

/-- Claim C2 (amended): the end-to-end example with default options produces
the final buffer line1, line2-changed, line3, a FileReport with applied=true
and changed_lines=2, and exactly one HunkReport with applied=true,
exact_match=true, ratio=1 (with default options dry_run is true, so the final
content is the computed buffer, reported rather than written). -/
theorem C2_example_amended :
    (applyFilePatch c2fp {} {} c2fs).1.applied = true ∧
    (applyFilePatch c2fp {} {} c2fs).1.changed_lines = 2 ∧
    (applyFilePatch c2fp {} {} c2fs).1.hunk_reports =
      [{index := 0, applied := true, already_applied := false, exact_match := true,
        ratio := 1, notes := ""}] ∧
    joinLines (processHunks c2fp.hunks ({} : ApplyOptions).ignore_space
      ({} : ApplyOptions).ratio_cutoff (readBuffer c2fp {} c2fs)).1 =
      "line1\nline2-changed\nline3\n".data := by
  decide

/-- Claim C3, evaluation at the failing input: when creating the backup
directory fails (backup mkdir sits outside the inner try of ensure_backup,
so its exception reaches the outer handler), the final write is never
attempted: the report says applied=false with a write-error note and the
target file keeps its original content, contradicting the claim that a
backup-step failure alone never prevents the write. -/
theorem C3_backup_mkdir_failure_bug :
    (applyFilePatch sampleFp sampleOpts {backupMkdirFails := true} sampleFs).1.applied = false ∧
    (applyFilePatch sampleFp sampleOpts {backupMkdirFails := true} sampleFs).1.changed_lines
        = 0 ∧
    (applyFilePatch sampleFp sampleOpts {backupMkdirFails := true} sampleFs).1.notes
        = writeErrorNote ∧
    lookupFile (applyFilePatch sampleFp sampleOpts
      {backupMkdirFails := true} sampleFs).2.files ("./f".data) = some "a".data := by
  decide

/-- Claim C4: when the buffer changed under dry_run=false and the final write
fails, the FileReport has applied=false, changed_lines=0, a write-error note,
and still carries the per-hunk reports; totality of the model reflects that
the call does not raise. -/
theorem C4_write_failure_report (fp : FilePatch) (opts : ApplyOptions) (env : Env)
    (fs : FSState) (h1 : opts.dry_run = false) (h2 : env.readFails = false)
    (h3 : env.backupMkdirFails = false) (h4 : env.writeFails = true)
    (hch : (processHunks fp.hunks opts.ignore_space opts.ratio_cutoff
      (readBuffer fp opts fs)).1 ≠ readBuffer fp opts fs) :
    (applyFilePatch fp opts env fs).1.applied = false ∧
    (applyFilePatch fp opts env fs).1.changed_lines = 0 ∧
    (applyFilePatch fp opts env fs).1.notes = writeErrorNote ∧
    (applyFilePatch fp opts env fs).1.hunk_reports =
      (processHunks fp.hunks opts.ignore_space opts.ratio_cutoff
        (readBuffer fp opts fs)).2 := by
  unfold applyFilePatch
  rw [h2]
  simp only [Bool.false_eq_true, if_false]
  rw [readBuffer_mkdirp]
  unfold finishFilePatch
  simp [h1, h3, h4, hch]

/-- Witness for C4 at the sample patch: the hunk rewrites the buffer, the
write fails, and the report shows the failed write with the hunk reports. -/
theorem C4_write_failure_report_witness :
    sampleOpts.dry_run = false ∧ ({writeFails := true} : Env).readFails = false ∧
    ({writeFails := true} : Env).backupMkdirFails = false ∧
    ({writeFails := true} : Env).writeFails = true ∧
    ((processHunks sampleFp.hunks sampleOpts.ignore_space sampleOpts.ratio_cutoff
        (readBuffer sampleFp sampleOpts sampleFs)).1 ≠
      readBuffer sampleFp sampleOpts sampleFs) ∧
    ((applyFilePatch sampleFp sampleOpts {writeFails := true} sampleFs).1.applied = false ∧
      (applyFilePatch sampleFp sampleOpts {writeFails := true} sampleFs).1.changed_lines = 0 ∧
      (applyFilePatch sampleFp sampleOpts {writeFails := true} sampleFs).1.notes
        = writeErrorNote ∧
      (applyFilePatch sampleFp sampleOpts {writeFails := true} sampleFs).1.hunk_reports =
        (processHunks sampleFp.hunks sampleOpts.ignore_space sampleOpts.ratio_cutoff
          (readBuffer sampleFp sampleOpts sampleFs)).2) :=
  ⟨rfl, rfl, rfl, rfl, by decide,
    C4_write_failure_report sampleFp sampleOpts {writeFails := true} sampleFs rfl rfl rfl rfl
      (by decide)⟩

/-- Claim C5: a dry run leaves the contents of every file on the filesystem
unchanged, for any batch of file patches and regardless of the reported
outcomes. -/
theorem C5_dry_run_files_unchanged (fps : List FilePatch) (opts : ApplyOptions) (env : Env)
    (fs : FSState) (h : opts.dry_run = true) :
    ((applyPatchesList opts env fps fs).2).files = fs.files := by
  induction fps generalizing fs with
  | nil => rfl
  | cons fp rest ih =>
    show ((applyPatchesList opts env (fp :: rest) fs).2).files = fs.files
    unfold applyPatchesList
    rw [ih ((applyFilePatch fp opts env fs).2)]
    exact applyFilePatch_dry_files fp opts env fs h

/-- Witness for C5 on the end-to-end example batch under default options. -/
theorem C5_dry_run_files_unchanged_witness :
    ({} : ApplyOptions).dry_run = true ∧
    ((applyPatchesList {} {} [c2fp] c2fs).2).files = c2fs.files :=
  ⟨rfl, C5_dry_run_files_unchanged [c2fp] {} {} c2fs rfl⟩

/-- Claim C6: a file section whose plus header names /dev/null contributes no
FilePatch and leaves the rest of the parse unchanged: parsing the lines with
the dev-null section present equals parsing them with the whole section
removed, from any parser state (hence after any earlier sections) and for any
following input that is empty or starts at the next file section. -/
theorem C6_devnull_section_skipped (st : PState) (dline plus : Line)
    (gap body post : List Line)
    (hd : startsWithChars dline dashHdr = true)
    (hgap : ∀ l ∈ gap, startsWithChars l plusHdr = false)
    (hplus : startsWithChars plus plusHdr = true)
    (hdev : stripWS (plus.drop 4) = devNull)
    (hbody : ∀ l ∈ body, startsWithChars l dashHdr = false)
    (hpost : post = [] ∨ ∃ p ps, post = p :: ps ∧ startsWithChars p dashHdr = true) :
    parseLinesFrom st ((dline :: (gap ++ plus :: body)) ++ post) = parseLinesFrom st post := by
  have hassoc : (dline :: (gap ++ plus :: body)) ++ post =
      dline :: (gap ++ plus :: (body ++ post)) := by
    simp
  have ha : startsWithChars devNull aPre = false := by decide
  have hb2 : startsWithChars devNull bPre = false := by decide
  unfold parseLinesFrom
  rw [hassoc, parseLoop]
  simp only [hd, if_true]
  split
  · rename_i heq
    rw [scanToPlus_append gap plus (body ++ post) hgap hplus] at heq
    cases heq
  · rename_i plus1 rest1 heq
    rw [scanToPlus_append gap plus (body ++ post) hgap hplus] at heq
    injection heq with heq1
    injection heq1 with hpl hrest
    subst hpl
    subst hrest
    simp only [hdev, ha, hb2, Bool.or_self, Bool.false_eq_true, if_false, if_true]
    rw [parseLoop_skip {st with curNewPath := none} rfl body post hbody]
    have := parseLinesFrom_set_cnp st none post hpost
    unfold parseLinesFrom at this
    exact this

/-- Witness for C6 on a concrete two-section diff whose first section targets
/dev/null. -/
theorem C6_devnull_section_skipped_witness :
    startsWithChars "--- a/g".data dashHdr = true ∧
    (∀ l ∈ ([] : List Line), startsWithChars l plusHdr = false) ∧
    startsWithChars "+++ /dev/null".data plusHdr = true ∧
    stripWS ("+++ /dev/null".data.drop 4) = devNull ∧
    (∀ l ∈ ["@@ -1 +1 @@".data, "-z".data], startsWithChars l dashHdr = false) ∧
    parseLinesFrom initPState
      (("--- a/g".data :: ([] ++ "+++ /dev/null".data :: ["@@ -1 +1 @@".data, "-z".data])) ++
        ["--- a/f".data, "+++ b/f".data, "@@ -1 +1 @@".data, "-x".data, "+y".data]) =
      parseLinesFrom initPState
        ["--- a/f".data, "+++ b/f".data, "@@ -1 +1 @@".data, "-x".data, "+y".data] :=
  ⟨by decide, by decide, by decide, by decide, by decide,
    C6_devnull_section_skipped initPState "--- a/g".data "+++ /dev/null".data []
      ["@@ -1 +1 @@".data, "-z".data]
      ["--- a/f".data, "+++ b/f".data, "@@ -1 +1 @@".data, "-x".data, "+y".data]
      (by decide) (by decide) (by decide) (by decide) (by decide)
      (Or.inr ⟨"--- a/f".data, ["+++ b/f".data, "@@ -1 +1 @@".data, "-x".data, "+y".data],
        rfl, by decide⟩)⟩

/-- Claim C7, counterexample: a FileReport with no hunk reports (as a read
error produces) vacuously has all hunks already applied, yet the counter
counts it as rejected, because the source maps an empty report list to
already_all=false; the claim says such a file is counted in none of the
three buckets. -/
theorem C7_counts_counterexample :
    (∀ hr ∈ emptyReportFr.hunk_reports, hr.already_applied = true) ∧
    summCounts [emptyReportFr] = (0, 0, 1) := by
  decide

/-- Claim C7 (amended): the summary counts classify each file exactly as the
spec describes, except that a file all of whose hunks are already applied is
counted in none of the buckets only when it has at least one hunk report; a
file with no hunk reports is counted as rejected.  Stated as equality with
the bucket counts defined from the amended wording. -/
theorem C7_counts_amended (frs : List FileReport) :
    summCounts frs =
      (frs.countP (fun fr => decide (claimExact fr)),
       frs.countP (fun fr => decide (claimFuzzy fr)),
       frs.countP (fun fr => decide (claimRejected fr))) := by
  unfold summCounts
  rw [summCounts_eq_aux]
  simp

/-- Claim C8: whenever both the old chunk and the new chunk occur as
contiguous runs in the buffer, the matcher decides by the exact old-chunk
match: it splices the new chunk over the found old-chunk span and reports
applied=true, exact_match=true, ratio=1, never already_applied. -/
theorem C8_exact_precedence (lines : List Line) (h : Hunk) (cut : ℚ)
    (hold : ∃ i, sliceAt lines (oldChunk h) i)
    (hnew : ∃ i, sliceAt lines (newChunk h) i) :
    ∃ i j, findSubsequence lines (oldChunk h) = some (i, j) ∧
      applySingleHunk lines h false cut =
        ({applied := true, already_applied := false, exact_match := true, ratio := 1,
          notes := ""}, lines.take i ++ newChunk h ++ lines.drop j) := by
  have hs := findSubsequence_isSome lines (oldChunk h) hold
  obtain ⟨⟨i, j⟩, hij⟩ := Option.isSome_iff_exists.mp hs
  refine ⟨i, j, hij, ?_⟩
  simp only [applySingleHunk, normSeq_false, hij]

/-- Witness for C8 on a buffer containing both chunks: the old chunk a is
replaced at its own position even though the new chunk c already occurs. -/
theorem C8_exact_precedence_witness :
    (∃ i, sliceAt w8lines (oldChunk w8hunk) i) ∧
    (∃ i, sliceAt w8lines (newChunk w8hunk) i) ∧
    (∃ i j, findSubsequence w8lines (oldChunk w8hunk) = some (i, j) ∧
      applySingleHunk w8lines w8hunk false (66 / 100) =
        ({applied := true, already_applied := false, exact_match := true, ratio := 1,
          notes := ""}, w8lines.take i ++ newChunk w8hunk ++ w8lines.drop j)) :=
  ⟨⟨1, by decide⟩, ⟨0, by decide⟩,
    C8_exact_precedence w8lines w8hunk (66 / 100) ⟨1, by decide⟩ ⟨0, by decide⟩⟩

/-- Claim C9: a hunk consisting solely of added lines has an empty old chunk,
which the matcher finds at position 0, so it splices the additions at the
start of the buffer and reports applied=true, exact_match=true, ratio=1, and
never already_applied, whatever the buffer contains. -/
theorem C9_pure_addition_insert (lines : List Line) (h : Hunk) (ig : Bool) (cut : ℚ)
    (hadd : ∀ l ∈ h.lines, headIs l '+' = true) :
    applySingleHunk lines h ig cut =
      ({applied := true, already_applied := false, exact_match := true, ratio := 1,
        notes := ""}, newChunk h ++ lines) := by
  have hold : oldChunk h = [] := by
    unfold oldChunk
    have hfil : h.lines.filter (fun l => headIs l ' ' || headIs l '-') = [] := by
      rw [List.filter_eq_nil_iff]
      intro a ha
      have hp := hadd a ha
      cases a with
      | nil => simp [headIs] at hp
      | cons c cs =>
        simp [headIs] at hp ⊢
        rw [hp]
        constructor <;> decide
    rw [hfil]
    rfl
  have hfind : findSubsequence (normSeq ig lines) (normSeq ig (oldChunk h)) = some (0, 0) := by
    rw [hold, normSeq_nil]
    rfl
  simp only [applySingleHunk, hfind, List.take_zero, List.drop_zero, List.nil_append]

/-- Witness for C9 on a buffer that already contains the added line: the
hunk still applies, duplicating the line, and is not reported as already
applied. -/
theorem C9_pure_addition_insert_witness :
    (∀ l ∈ w9hunk.lines, headIs l '+' = true) ∧
    applySingleHunk w9lines w9hunk false (66 / 100) =
      ({applied := true, already_applied := false, exact_match := true, ratio := 1,
        notes := ""}, newChunk w9hunk ++ w9lines) :=
  ⟨by decide, C9_pure_addition_insert w9lines w9hunk false (66 / 100) (by decide)⟩

/-- Claim C10: for every patch, options and filesystem state, applying the
patch records the parent directory of the resolved target path among the
created directories, also under dry_run and when no file is written. -/
theorem C10_mkdir_parents_always (fp : FilePatch) (opts : ApplyOptions) (env : Env)
    (fs : FSState) :
    parentDir (resolvePath opts.repo_root fp.path) ∈ ((applyFilePatch fp opts env fs).2).dirs := by
  unfold applyFilePatch
  cases hr : env.readFails
  · simp only [Bool.false_eq_true, if_false]
    simp only [finishFilePatch]
    repeat' split
    all_goals first
      | exact mem_mkdirp_self _ _
      | exact mem_ensureBackup_of_mem _ _ _ _ _ (mem_mkdirp_self _ _)
  · simp only [if_true]
    exact mem_mkdirp_self _ _

end FF5
